import Mathlib

/-
Verification development for the LeCroy VICP client (lecroy_python3.py).

The byte stream between client and oscilloscope is modelled at the frame
level: an inbound stream is a list of frames `(flags, payload)`, where the
program itself assumes (see the `readAll` docstring in the source:
"assumes all data frame transfers can be done in one go") that each 8-byte
header arrives in one `recv(8)` call and each payload is delivered exactly.
Bytes are `Nat` values; byte-level wrap-around is made explicit with `% 256`
and `% 4294967296` where the C types in the source truncate.  The host is
taken to be little-endian (the platform the program targets), so
`socket.htonl` / `socket.ntohl` are the 32-bit byte swap.
-/

namespace LeCroy

/-- Module-level flag constants from the source (lines 44-58). -/
def LECROY_EOI_FLAG : Nat := 0x01

def LECROY_DATA_FLAG : Nat := 0x80

/-- The 32-bit byte swap; models `socket.htonl` and `socket.ntohl` on a
little-endian host.  The argument is reduced mod 2^32 first, as the C
functions operate on 32-bit values. -/
def byteswap32 (n : Nat) : Nat :=
  n % 4294967296 % 256 * 16777216 +
    n % 4294967296 / 256 % 256 * 65536 +
    n % 4294967296 / 65536 % 256 * 256 +
    n % 4294967296 / 16777216

/-- Little-endian memory image of a 32-bit value, as `ctypes.c_int` stores
`iLength` on a little-endian host (ctypes silently truncates mod 2^32). -/
def storeLE32 (n : Nat) : List Nat :=
  [n % 256, n / 256 % 256, n / 65536 % 256, n / 16777216 % 256]

/-- The 8 bytes of `LECROY_TCP_HEADER(flags, (1, 0, 0), socket.htonl(msglen))`
as built in `send` (source lines 103-105): flag byte (c_ubyte truncates
mod 256), reserved bytes (1, 0, 0), then the c_int image of `htonl msglen`. -/
def headerBytes (flags msglen : Nat) : List Nat :=
  flags % 256 :: 1 :: 0 :: 0 :: storeLE32 (byteswap32 msglen)

/-- Model of `LeCroy.__translate` (source lines 171-181): `struct.unpack("B3BI", data)`
requires exactly 8 bytes (else `struct.error`, modelled as `none`); the `I`
field is read in native (little-endian) order from bytes 4-7 and then put
through `socket.ntohl`.  Returns `(eofflag, datalen)`. -/
def translate (data : List Nat) : Option (Nat × Nat) :=
  if data.length = 8 then
    some (data.getD 0 0,
      byteswap32 (data.getD 4 0 + 256 * data.getD 5 0 +
        65536 * data.getD 6 0 + 16777216 * data.getD 7 0))
  else none

/-- Outcome of one `readAll` call. -/
inductive ReadResult
  | blocked
  | decodeError
  | done (flags : Nat) (data : List Nat)
  deriving DecidableEq, Repr

/-- Model of `LeCroy.readAll` (source lines 192-206) over a frame-level stream:
get the header `(flg, lnt)`, receive `lnt` bytes and ASCII-decode them
(a byte at or above 128 raises `UnicodeDecodeError`, modelled as
`decodeError`), append to the accumulator, and loop again exactly when
`flg == LECROY_DATA_FLAG`; otherwise return `(flg, dtstr)`.  An exhausted
stream leaves `recv` blocking forever, modelled as `blocked`. -/
def readAll : List (Nat × List Nat) → ReadResult
  | [] => ReadResult.blocked
  | (flg, payload) :: rest =>
    if payload.all (fun c => c < 128) then
      if flg ≠ LECROY_DATA_FLAG then ReadResult.done flg payload
      else
        match readAll rest with
        | ReadResult.done f d => ReadResult.done f (payload ++ d)
        | r => r
    else ReadResult.decodeError

/-- Outcome of one `send` call. -/
inductive SendResult
  | ok (written : List Nat)
  | headerError
  | blocked
  deriving DecidableEq, Repr

/-- The payload write loop of `send` (source lines 113-119).  The outbound
stream is modelled by `accepts`: the number of bytes each successive
`s.send` call accepts.  `while byteindx < msglen` keeps calling `send` on
the unsent suffix; each call transfers `min remaining accepted` bytes.
Returns the transcript of the bytes written, or `none` when the stream
stops accepting while bytes remain (the real call would block). -/
def payloadLoop : List Nat → List Nat → Option (List Nat)
  | _, [] => some []
  | [], _ :: _ => none
  | a :: as, msg => (payloadLoop as (msg.drop a)).map (fun w => msg.take a ++ w)

/-- Model of `LeCroy.send` (source lines 95-119): builds the header with flags
`LECROY_DATA_FLAG | LECROY_EOI_FLAG`, writes it with a single `s.send`
call and raises `RuntimeError` when fewer than all 8 bytes were written
(no retry for the header); then writes `message` in a retry loop.  The
message is the ASCII encoding of the command (byte values below 128);
`accepts` lists the byte counts the stream takes per `send` call.
On success the result carries the full transcript of written bytes. -/
def send_model : List Nat → List Nat → SendResult
  | [], _ => SendResult.blocked
  | a :: as, message =>
    if min 8 a ≠ 8 then SendResult.headerError
    else
      match payloadLoop as message with
      | some w =>
        SendResult.ok (headerBytes (LECROY_DATA_FLAG ||| LECROY_EOI_FLAG) message.length ++ w)
      | none => SendResult.blocked

/-- Model of `rethead[-11:-9]` (source line 262): Python slicing with negative
indices, clamped at 0 for short inputs. -/
def blockMarker (rethead : List Nat) : List Nat :=
  (rethead.drop (rethead.length - 11)).take (rethead.length - 9 - (rethead.length - 11))

/-- Model of `rethead[-9:]` (source line 266): the nine declared-length digit bytes. -/
def blockDigits (rethead : List Nat) : List Nat :=
  rethead.drop (rethead.length - 9)

/-- ASCII whitespace accepted by Python `int()` around a numeric string. -/
def isPySpace (c : Nat) : Bool :=
  c = 32 || c = 9 || c = 10 || c = 11 || c = 12 || c = 13

/-- ASCII decimal digit test. -/
def isDigitB (c : Nat) : Bool :=
  48 ≤ c && c ≤ 57

/-- After the first digit, Python `int()` allows single underscores that
are surrounded by digits. -/
def digRunAux : List Nat → Bool
  | [] => true
  | [95] => false
  | 95 :: 95 :: _ => false
  | 95 :: d :: rest => isDigitB d && digRunAux rest
  | c :: rest => isDigitB c && digRunAux rest

/-- Test for a valid `int()` digit run: nonempty, starts with a digit, underscores
only between digits. -/
def digRun : List Nat → Bool
  | [] => false
  | c :: rest => isDigitB c && digRunAux rest

/-- Decimal value of a digit list (underscores already removed). -/
def digitsVal (l : List Nat) : Nat :=
  l.foldl (fun a c => a * 10 + (c - 48)) 0

/-- Model of Python `int(s)` on an ASCII string given as its code points: strip
whitespace at both ends, allow one optional sign, then require a valid
digit run; `none` models `ValueError`. -/
def pyInt (s : List Nat) : Option Int :=
  let t := ((s.dropWhile isPySpace).reverse.dropWhile isPySpace).reverse
  match t with
  | 43 :: rest =>
    if digRun rest then some (Int.ofNat (digitsVal (rest.filter (fun c => c ≠ 95))))
    else none
  | 45 :: rest =>
    if digRun rest then some (-Int.ofNat (digitsVal (rest.filter (fun c => c ≠ 95))))
    else none
  | other =>
    if digRun other then some (Int.ofNat (digitsVal (other.filter (fun c => c ≠ 95))))
    else none

/-- Outcome of the `#9` block-length preamble checks of `getDataWords`. -/
inductive BlockLenResult
  | malformedBlock
  | valueErr
  | ok (expBytes : Int)
  deriving DecidableEq, Repr

/-- The preamble checks of `getDataWords` (source lines 262-269):
`rethead[-11:-9]` must equal the ASCII literal `#9`, else
`RuntimeError("incorrectly returned header")` (`malformedBlock`); then
`int(rethead[-9:].decode('ascii').lstrip("0"))` — a byte at or above 128
fails the ASCII decode and a string `int()` cannot parse (such as the
empty string left when every digit was a stripped zero) raises
`ValueError`, both modelled as `valueErr`; finally an odd byte count
raises `RuntimeError("odd number of bytes expected")` (`malformedBlock`). -/
def parseBlockLen (rethead : List Nat) : BlockLenResult :=
  if blockMarker rethead ≠ [35, 57] then BlockLenResult.malformedBlock
  else if ¬ ((blockDigits rethead).all fun c => c < 128) then BlockLenResult.valueErr
  else
    match pyInt ((blockDigits rethead).dropWhile fun c => c = 48) with
    | none => BlockLenResult.valueErr
    | some n => if n % 2 ≠ 0 then BlockLenResult.malformedBlock else BlockLenResult.ok n

/-- The declared count as `int()` yields it (independent observer used to
characterise when `parseBlockLen` reports a malformed block). -/
def parsedCount (rethead : List Nat) : Option Int :=
  if (blockDigits rethead).all (fun c => c < 128) then
    pyInt ((blockDigits rethead).dropWhile fun c => c = 48)
  else none

/-- The shared data-accumulation loop of `getDataWords` (source lines
272-286) and `getDataBytes` (source lines 222-234): read headers, append
payloads of frames whose flag equals `LECROY_DATA_FLAG`, and stop at the
first frame whose flag differs — its payload `en` is read off the stream
and compared against `b"\n"`, printing a complaint when it differs (the
Bool records whether that complaint was printed).  `none` models a stream
that ends before a terminating frame (the `recv` blocks). -/
def collect : List (Nat × List Nat) → Option (List Nat × Bool)
  | [] => none
  | (flg, payload) :: rest =>
    if flg ≠ LECROY_DATA_FLAG then some ([], decide (payload ≠ [10]))
    else
      match collect rest with
      | some (dta, anom) => some (payload ++ dta, anom)
      | none => none

/-- Signed 16-bit reinterpretation of a value mod 2^16 (format `h`). -/
def toInt16 (n : Nat) : Int :=
  if n % 65536 < 32768 then (n % 65536 : Int) else (n % 65536 : Int) - 65536

/-- Model of the unpack call on line 293 of the source, format string
little-endian signed 16-bit with the group count: consecutive
little-endian 2-byte groups as signed 16-bit integers. -/
def decodeWordsLE : List Nat → List Int
  | [] => []
  | [_] => []
  | lo :: hi :: rest => toInt16 (lo + 256 * hi) :: decodeWordsLE rest

/-- Signed 8-bit reinterpretation of a byte (format `b`). -/
def toInt8 (n : Nat) : Int :=
  if n % 256 < 128 then (n % 256 : Int) else (n % 256 : Int) - 256

/-- Model of `struct.iter_unpack` with format b (source line 236): each byte as a
signed 8-bit integer. -/
def decodeBytesSigned (l : List Nat) : List Int :=
  l.map toInt8

/-- Outcome of a `getDataWords` call. -/
inductive WordsResult
  | malformedBlock
  | valueErr
  | lengthMismatch (expected : Int) (got : Nat)
  | blocked
  | ok (values : List Int) (anomalyPrinted : Bool)
  deriving DecidableEq, Repr

/-- Model of `LeCroy.getDataWords` (source lines 240-293) after the three `send`
calls: `rethead` is the 38-byte response preamble from `recv(38)`, then
the `#9` length checks, the accumulation loop over the inbound `frames`,
the `len(dta) != exp_bytes` assertion (`AssertionError`, which reports
both counts), and finally the 16-bit little-endian decode. -/
def getDataWords (rethead : List Nat) (frames : List (Nat × List Nat)) : WordsResult :=
  match parseBlockLen rethead with
  | BlockLenResult.malformedBlock => WordsResult.malformedBlock
  | BlockLenResult.valueErr => WordsResult.valueErr
  | BlockLenResult.ok exp =>
    match collect frames with
    | none => WordsResult.blocked
    | some (dta, anom) =>
      if (dta.length : Int) ≠ exp then WordsResult.lengthMismatch exp dta.length
      else WordsResult.ok (decodeWordsLE dta) anom

/-- Model of `LeCroy.getDataBytes` (source lines 209-237) after the two `send`
calls and the discarded `recv(38)`: the same accumulation loop, no length
check, and a signed 8-bit decode of the accumulated bytes. -/
def getDataBytes (frames : List (Nat × List Nat)) : Option (List Int × Bool) :=
  (collect frames).map (fun r => (decodeBytesSigned r.1, r.2))

/-- The calibration arithmetic of `getVertFloats` (source line 320):
`VG * np.array(word_values, dtype=np.float64) - VOS`, elementwise over the
samples.  np.float64 arithmetic is modelled by exact rationals; on the
dyadic gains/offsets and 16-bit integer samples the claims exercise, the
float64 operations are exact. -/
def getVertFloats_values (VG VOS : ℚ) (word_values : List Int) : List ℚ :=
  word_values.map (fun w : Int => VG * (w : ℚ) - VOS)

/-- The return value of `getVertFloats` (source lines 295-320) given the
already-parsed calibration metadata: the unit string paired with the
scaled samples. -/
def getVertFloats_model (VERTUNIT : String) (VG VOS : ℚ) (word_values : List Int) :
    String × List ℚ :=
  (VERTUNIT, getVertFloats_values VG VOS word_values)

/-- The payload write loop only succeeds after transferring exactly the
message, in order. -/
theorem payloadLoop_eq (accepts : List Nat) :
    ∀ msg w : List Nat, payloadLoop accepts msg = some w → w = msg := by
  induction accepts with
  | nil =>
    intro msg w h
    cases msg with
    | nil =>
      simp only [payloadLoop, Option.some.injEq] at h
      exact h.symm
    | cons m ms => simp [payloadLoop] at h
  | cons a as ih =>
    intro msg w h
    cases msg with
    | nil =>
      simp only [payloadLoop, Option.some.injEq] at h
      exact h.symm
    | cons m ms =>
      simp only [payloadLoop, Option.map_eq_some'] at h
      obtain ⟨w2, hw2, hw⟩ := h
      have h2 := ih _ _ hw2
      subst h2
      rw [← hw, List.take_append_drop]

/-- Accumulation loop: frames whose flag equals the data flag contribute
their payloads in order; the first other frame stops the loop, its payload
is consumed and only checked against a single newline. -/
theorem collect_append (pre : List (Nat × List Nat)) (f : Nat) (p : List Nat)
    (rest : List (Nat × List Nat))
    (hpre : ∀ fr ∈ pre, fr.1 = LECROY_DATA_FLAG) (hf : f ≠ LECROY_DATA_FLAG) :
    collect (pre ++ (f, p) :: rest) =
      some ((pre.map Prod.snd).flatten, decide (p ≠ [10])) := by
  induction pre with
  | nil => simp [collect, hf]
  | cons fr pre ih =>
    have h1 : fr.1 = LECROY_DATA_FLAG := hpre fr (by simp)
    have ih2 := ih (fun x hx => hpre x (by simp [hx]))
    obtain ⟨flg, payload⟩ := fr
    simp only at h1
    subst h1
    simp [collect, ih2]

/-- Evaluation of `readAll` on a stream of exactly-data-flagged ASCII frames followed by
a terminator: returns the terminator flags with the concatenation of every
payload, the terminator payload included. -/
theorem readAll_append (pre : List (Nat × List Nat)) (f : Nat) (p : List Nat)
    (rest : List (Nat × List Nat))
    (hpre : ∀ fr ∈ pre, fr.1 = LECROY_DATA_FLAG ∧ fr.2.all (fun c => c < 128) = true)
    (hf : f ≠ LECROY_DATA_FLAG) (hp : p.all (fun c => c < 128) = true) :
    readAll (pre ++ (f, p) :: rest) =
      ReadResult.done f ((pre.map Prod.snd).flatten ++ p) := by
  induction pre with
  | nil => simp [readAll, hf, hp]
  | cons fr pre ih =>
    have h1 := hpre fr (by simp)
    have ih2 := ih (fun x hx => hpre x (by simp [hx]))
    obtain ⟨flg, payload⟩ := fr
    obtain ⟨h1a, h1b⟩ := h1
    simp only at h1a h1b
    subst h1a
    simp [readAll, ih2, h1b]

/-- The word decoder yields one value for every full 2-byte group. -/
theorem decodeWordsLE_length (l : List Nat) :
    (decodeWordsLE l).length = l.length / 2 := by
  induction l using decodeWordsLE.induct with
  | case1 => simp [decodeWordsLE]
  | case2 a => simp [decodeWordsLE]
  | case3 lo hi rest ih =>
    simp only [decodeWordsLE, List.length_cons, ih]
    omega

/-- The i-th decoded word comes from bytes 2i (low) and 2i+1 (high). -/
theorem decodeWordsLE_get (l : List Nat) :
    ∀ i : Nat, 2 * i + 1 < l.length →
      (decodeWordsLE l).get? i =
        some (toInt16 (l.getD (2 * i) 0 + 256 * l.getD (2 * i + 1) 0)) := by
  induction l using decodeWordsLE.induct with
  | case1 => intro i h; simp at h
  | case2 a => intro i h; simp only [List.length_singleton] at h; omega
  | case3 lo hi rest ih =>
    intro i h
    cases i with
    | zero => simp [decodeWordsLE]
    | succ j =>
      have h2 : 2 * j + 1 < rest.length := by
        simp only [List.length_cons] at h
        omega
      have e1 : 2 * (j + 1) = 2 * j + 1 + 1 := by ring
      have e2 : 2 * (j + 1) + 1 = 2 * j + 1 + 1 + 1 := by ring
      simp only [decodeWordsLE, List.get?_cons_succ, e1, e2, List.getD_cons_succ]
      exact ih j h2

/-- A successfully parsed declared byte count is even. -/
theorem parseBlockLen_ok_even (rethead : List Nat) (n : Int)
    (h : parseBlockLen rethead = BlockLenResult.ok n) : n % 2 = 0 := by
  unfold parseBlockLen at h
  split at h
  · exact absurd h (by simp)
  · split at h
    · exact absurd h (by simp)
    · split at h
      · exact absurd h (by simp)
      · rename_i m hm
        split at h
        · exact absurd h (by simp)
        · rename_i hmod
          simp only [BlockLenResult.ok.injEq] at h
          subst h
          omega

/-- Low byte of a 4-digit base-256 decomposition. -/
theorem dig0 (a b c d : Nat) (ha : a < 256) (hb : b < 256) (hc : c < 256) (hd : d < 256) :
    (a + 256 * b + 65536 * c + 16777216 * d) % 256 = a := by omega

/-- Second byte of a 4-digit base-256 decomposition. -/
theorem dig1 (a b c d : Nat) (ha : a < 256) (hb : b < 256) (hc : c < 256) (hd : d < 256) :
    (a + 256 * b + 65536 * c + 16777216 * d) / 256 % 256 = b := by omega

/-- Third byte of a 4-digit base-256 decomposition. -/
theorem dig2 (a b c d : Nat) (ha : a < 256) (hb : b < 256) (hc : c < 256) (hd : d < 256) :
    (a + 256 * b + 65536 * c + 16777216 * d) / 65536 % 256 = c := by omega

/-- High byte of a 4-digit base-256 decomposition. -/
theorem dig3 (a b c d : Nat) (ha : a < 256) (hb : b < 256) (hc : c < 256) (hd : d < 256) :
    (a + 256 * b + 65536 * c + 16777216 * d) / 16777216 % 256 = d := by omega

/-- High byte of a 4-digit base-256 decomposition, without the mask. -/
theorem dig3u (a b c d : Nat) (ha : a < 256) (hb : b < 256) (hc : c < 256) (hd : d < 256) :
    (a + 256 * b + 65536 * c + 16777216 * d) / 16777216 = d := by omega

/-- The byte swap exchanges the base-256 digits end for end. -/
theorem byteswap32_digits (a b c d : Nat)
    (ha : a < 256) (hb : b < 256) (hc : c < 256) (hd : d < 256) :
    byteswap32 (a + 256 * b + 65536 * c + 16777216 * d) =
      d + 256 * c + 65536 * b + 16777216 * a := by
  unfold byteswap32
  omega

/-- The byte swap stays below 2^32. -/
theorem byteswap32_lt (n : Nat) : byteswap32 n < 4294967296 := by
  unfold byteswap32
  omega

/-- Evaluation of `storeLE32` on a 4-digit base-256 decomposition lists the digits. -/
theorem storeLE32_digits (a b c d : Nat)
    (ha : a < 256) (hb : b < 256) (hc : c < 256) (hd : d < 256) :
    storeLE32 (a + 256 * b + 65536 * c + 16777216 * d) = [a, b, c, d] := by
  simp only [storeLE32, dig0 a b c d ha hb hc hd, dig1 a b c d ha hb hc hd,
    dig2 a b c d ha hb hc hd, dig3 a b c d ha hb hc hd]

/-- Unfolding `translate` on an encoded header (both sides reduce). -/
theorem translate_headerBytes (flags msglen : Nat) :
    translate (headerBytes flags msglen) =
      some (flags % 256,
        byteswap32 (byteswap32 msglen % 256 + 256 * (byteswap32 msglen / 256 % 256) +
          65536 * (byteswap32 msglen / 65536 % 256) +
          16777216 * (byteswap32 msglen / 16777216 % 256))) := rfl

/-- Claim C2: for every flags byte and every length in [0, 2^32-1],
decoding (with `__translate`) the 8-byte header that `send` encodes for
`(flags, length)` yields back exactly `(flags, length)`, and the length
field occupies bytes 4-7 as a big-endian unsigned 32-bit value. -/
theorem header_roundtrip (flags msglen : Nat) (hf : flags < 256) (hl : msglen < 4294967296) :
    translate (headerBytes flags msglen) = some (flags, msglen) ∧
    (headerBytes flags msglen).drop 4 =
      [msglen / 16777216, msglen / 65536 % 256, msglen / 256 % 256, msglen % 256] := by
  obtain ⟨a, b, c, d, ha, hb, hc, hd, hn⟩ :
      ∃ a b c d : Nat, a < 256 ∧ b < 256 ∧ c < 256 ∧ d < 256 ∧
        msglen = a + 256 * b + 65536 * c + 16777216 * d := by
    exact ⟨msglen % 256, msglen / 256 % 256, msglen / 65536 % 256, msglen / 16777216,
      by omega, by omega, by omega, by omega, by omega⟩
  constructor
  · have hrec : byteswap32 msglen % 256 + 256 * (byteswap32 msglen / 256 % 256) +
        65536 * (byteswap32 msglen / 65536 % 256) +
        16777216 * (byteswap32 msglen / 16777216 % 256) = byteswap32 msglen := by
      have := byteswap32_lt msglen
      omega
    rw [translate_headerBytes, hrec, hn, byteswap32_digits a b c d ha hb hc hd,
      byteswap32_digits d c b a hd hc hb ha]
    simp only [Option.some.injEq, Prod.mk.injEq]
    exact ⟨Nat.mod_eq_of_lt hf, trivial⟩
  · show storeLE32 (byteswap32 msglen) = _
    rw [hn, byteswap32_digits a b c d ha hb hc hd, storeLE32_digits d c b a hd hc hb ha,
      dig3u a b c d ha hb hc hd, dig2 a b c d ha hb hc hd, dig1 a b c d ha hb hc hd,
      dig0 a b c d ha hb hc hd]

/-- Witness for C2 at flags 7 and length 0x12345678. -/
theorem header_roundtrip_witness :
    translate (headerBytes 7 305419896) = some (7, 305419896) ∧
    (headerBytes 7 305419896).drop 4 = [18, 52, 86, 120] :=
  ⟨(header_roundtrip 7 305419896 (by decide) (by decide)).1,
    by rw [(header_roundtrip 7 305419896 (by decide) (by decide)).2]⟩

/-- Claim C1 (counterexample): a first frame whose flags carry the
data/continuation bit together with another bit (0x81) stops the loop —
`readAll` does not continue merely because the data bit is set, so the
claimed result (last frame's flags 0x01 with both payloads concatenated)
is not what the code returns. -/
theorem readAll_continuation_counterexample :
    readAll [(129, [97]), (1, [98])] = ReadResult.done 129 [97] ∧
    readAll [(129, [97]), (1, [98])] ≠ ReadResult.done 1 [97, 98] := by decide

/-- Claim C1 (amended): for every finite sequence of inbound ASCII frames
in which every frame except the last has flags exactly equal to the data
flag 0x80 (not merely containing that bit) and the last frame's flags
differ from 0x80, `readAll` returns the concatenation of all the frames'
payloads in transmission order together with the last frame's flags; the
loop continues exactly as long as the received flags equal 0x80. -/
theorem readAll_exact_data_flag (pre : List (Nat × List Nat)) (f : Nat) (p : List Nat)
    (rest : List (Nat × List Nat))
    (hpre : ∀ fr ∈ pre, fr.1 = LECROY_DATA_FLAG ∧ fr.2.all (fun c => c < 128) = true)
    (hf : f ≠ LECROY_DATA_FLAG) (hp : p.all (fun c => c < 128) = true) :
    readAll (pre ++ (f, p) :: rest) =
      ReadResult.done f ((pre.map Prod.snd).flatten ++ p) :=
  readAll_append pre f p rest hpre hf hp

/-- Witness for the amended C1 on a two-frame stream. -/
theorem readAll_exact_data_flag_witness :
    readAll [(128, [97]), (1, [98])] = ReadResult.done 1 [97, 98] := by
  have h := readAll_exact_data_flag [(128, [97])] 1 [98] [] (by decide) (by decide) (by decide)
  simpa using h

/-- Claim C3 (code evaluation): a declared count of nine zero digits does
not parse as 0 — `lstrip("0")` removes every digit and `int("")` raises
`ValueError` — while a nonzero count such as 000000010 parses fine. -/
theorem blockLen_all_zeros_value_error :
    parseBlockLen [35, 57, 48, 48, 48, 48, 48, 48, 48, 48, 48] = BlockLenResult.valueErr ∧
    parseBlockLen [35, 57, 48, 48, 48, 48, 48, 48, 48, 49, 48] = BlockLenResult.ok 10 := by
  decide

/-- Claim C4: with a parsed declared count and an accumulated data block,
`getDataWords` fails with the length-mismatch error reporting both the
expected and the actual count whenever they differ (before any decoding —
the decode only appears in the equal branch), and no such error is raised
when they are equal. -/
theorem getDataWords_length_check (rethead : List Nat) (frames : List (Nat × List Nat))
    (exp : Int) (dta : List Nat) (anom : Bool)
    (hpar : parseBlockLen rethead = BlockLenResult.ok exp)
    (hcol : collect frames = some (dta, anom)) :
    ((dta.length : Int) ≠ exp →
      getDataWords rethead frames = WordsResult.lengthMismatch exp dta.length) ∧
    ((dta.length : Int) = exp →
      getDataWords rethead frames = WordsResult.ok (decodeWordsLE dta) anom) := by
  constructor
  · intro h
    unfold getDataWords
    simp only [hpar, hcol]
    rw [if_pos h]
  · intro h
    unfold getDataWords
    simp only [hpar, hcol]
    rw [if_neg (by simp [h])]

/-- Witness for C4: a block declaring 10 bytes while only 8 arrive before
the terminating frame fails with expected=10, got=8. -/
theorem getDataWords_length_check_witness :
    getDataWords [35, 57, 48, 48, 48, 48, 48, 48, 48, 49, 48]
        [(128, [1, 2, 3, 4, 5, 6, 7, 8]), (1, [10])] =
      WordsResult.lengthMismatch 10 8 := by
  rw [(getDataWords_length_check [35, 57, 48, 48, 48, 48, 48, 48, 48, 49, 48]
    [(128, [1, 2, 3, 4, 5, 6, 7, 8]), (1, [10])] 10 [1, 2, 3, 4, 5, 6, 7, 8] false
    (by decide) (by decide)).1 (by decide)]
  decide

/-- Claim C5: when the accumulated length equals the declared count,
`getDataWords` decodes consecutive 2-byte groups as little-endian signed
16-bit integers in order, yielding declared-count/2 values; the 4 bytes
0x01 0x00 0xFE 0xFF decode to [1, -2]. -/
theorem getDataWords_word_decode (rethead : List Nat) (frames : List (Nat × List Nat))
    (exp : Int) (dta : List Nat) (anom : Bool)
    (hpar : parseBlockLen rethead = BlockLenResult.ok exp)
    (hcol : collect frames = some (dta, anom))
    (hlen : (dta.length : Int) = exp) :
    getDataWords rethead frames = WordsResult.ok (decodeWordsLE dta) anom ∧
    2 * (decodeWordsLE dta).length = dta.length ∧
    (∀ i, 2 * i + 1 < dta.length →
      (decodeWordsLE dta).get? i =
        some (toInt16 (dta.getD (2 * i) 0 + 256 * dta.getD (2 * i + 1) 0))) ∧
    decodeWordsLE [1, 0, 254, 255] = [1, -2] := by
  refine ⟨?_, ?_, decodeWordsLE_get dta, by decide⟩
  · unfold getDataWords
    simp only [hpar, hcol]
    rw [if_neg (by simp [hlen])]
  have heven := parseBlockLen_ok_even rethead exp hpar
  have h2 : dta.length % 2 = 0 := by omega
  rw [decodeWordsLE_length]
  omega

/-- Witness for C5 on a declared 4-byte block arriving in one data frame. -/
theorem getDataWords_word_decode_witness :
    getDataWords [35, 57, 48, 48, 48, 48, 48, 48, 48, 48, 52]
        [(128, [1, 0, 254, 255]), (1, [10])] =
      WordsResult.ok [1, -2] false := by
  rw [(getDataWords_word_decode [35, 57, 48, 48, 48, 48, 48, 48, 48, 48, 52]
    [(128, [1, 0, 254, 255]), (1, [10])] 4 [1, 0, 254, 255] false
    (by decide) (by decide) (by decide)).1]
  decide

/-- Claim C6: the function `getVertFloats` returns `(unit, values)` with
`values[i] = vertical_gain * raw_sample[i] - vertical_offset` at every
index, preserving length and order; raw samples [100, -100] with gain 0.5
and offset 2.0 yield [48.0, -52.0]. -/
theorem getVertFloats_calibration (u : String) (VG VOS : ℚ) (raw : List Int) :
    (getVertFloats_model u VG VOS raw).1 = u ∧
    (getVertFloats_model u VG VOS raw).2.length = raw.length ∧
    (∀ i, (getVertFloats_model u VG VOS raw).2.get? i =
      (raw.get? i).map (fun w : Int => VG * (w : ℚ) - VOS)) ∧
    getVertFloats_values (1 / 2) 2 [100, -100] = [48, -52] := by
  refine ⟨rfl, ?_, ?_, ?_⟩
  · unfold getVertFloats_model getVertFloats_values
    exact List.length_map _ _
  · intro i
    unfold getVertFloats_model getVertFloats_values
    simp only [List.get?_map]
  · simp only [getVertFloats_values, List.map_cons, List.map_nil, List.cons.injEq]
    norm_num

/-- Claim C7: the block preamble of `getDataWords` reports a malformed
block exactly when the two bytes before the nine digits differ from the
ASCII literal `#9` or the parsed count is odd; and whenever it does, the
call fails the same way no matter what the data stream holds — no frame
is consumed. -/
theorem getDataWords_malformed_iff (rethead : List Nat) :
    (parseBlockLen rethead = BlockLenResult.malformedBlock ↔
      blockMarker rethead ≠ [35, 57] ∨
        ∃ n : Int, parsedCount rethead = some n ∧ n % 2 ≠ 0) ∧
    (parseBlockLen rethead = BlockLenResult.malformedBlock →
      ∀ frames, getDataWords rethead frames = WordsResult.malformedBlock) := by
  constructor
  · unfold parseBlockLen parsedCount
    cases hpi : pyInt ((blockDigits rethead).dropWhile fun c => c = 48) with
    | none => split_ifs <;> simp_all
    | some n => split_ifs <;> simp_all
  · intro h frames
    unfold getDataWords
    rw [h]

/-- Witness for C7 at a header whose marker bytes read "XX". -/
theorem getDataWords_malformed_iff_witness :
    parseBlockLen [88, 88, 48, 48, 48, 48, 48, 48, 48, 49, 48] =
      BlockLenResult.malformedBlock ∧
    getDataWords [88, 88, 48, 48, 48, 48, 48, 48, 48, 49, 48] [] =
      WordsResult.malformedBlock := by
  have h := getDataWords_malformed_iff [88, 88, 48, 48, 48, 48, 48, 48, 48, 49, 48]
  have h1 := h.1.mpr (Or.inl (by decide))
  exact ⟨h1, h.2 h1 []⟩

/-- Claim C8 (counterexample): a stream that accepts 4 bytes per write
never sees the header retried — `send` raises an error on the partial
header write instead of retrying, so the claimed full 10-byte transcript
is not produced even though the stream accepts all bytes eventually. -/
theorem send_header_retry_counterexample :
    send_model [4, 4, 100] [65, 66] = SendResult.headerError ∧
    send_model [4, 4, 100] [65, 66] ≠
      SendResult.ok (headerBytes (LECROY_DATA_FLAG ||| LECROY_EOI_FLAG) 2 ++ [65, 66]) := by
  decide

/-- Claim C8 (amended): the method `send` writes the 8-byte header (flags
data + end-of-transmission, length = len(message)) with a single write and
raises an error if that write is partial (no header retry); partial writes
of the payload are retried until every byte is written; after a successful
call exactly 8 + len(message) bytes have been written, header first, then
the payload. -/
theorem send_transcript (accepts message : List Nat) :
    (∀ out, send_model accepts message = SendResult.ok out →
      out = headerBytes (LECROY_DATA_FLAG ||| LECROY_EOI_FLAG) message.length ++ message ∧
      out.length = 8 + message.length) ∧
    (∀ a as, accepts = a :: as → a < 8 →
      send_model accepts message = SendResult.headerError) := by
  constructor
  · intro out hout
    cases accepts with
    | nil => exact absurd hout (by simp [send_model])
    | cons a as =>
      simp only [send_model] at hout
      split at hout
      · exact absurd hout (by simp)
      · split at hout
        · rename_i w heq
          simp only [SendResult.ok.injEq] at hout
          have hw := payloadLoop_eq as message w heq
          rw [hw] at hout
          refine ⟨hout.symm, ?_⟩
          have h8 : (headerBytes (LECROY_DATA_FLAG ||| LECROY_EOI_FLAG)
              message.length).length = 8 := rfl
          rw [← hout, List.length_append, h8]
        · exact absurd hout (by simp)
  · intro a as ha hlt
    subst ha
    have hmin : min 8 a ≠ 8 := by omega
    simp only [send_model]
    rw [if_pos hmin]

/-- Witness for the amended C8: a complete send over a stream that takes
the header at once but the payload one byte at a time, and a failing send
over a stream that takes only 4 bytes of the header. -/
theorem send_transcript_witness :
    (headerBytes (LECROY_DATA_FLAG ||| LECROY_EOI_FLAG) 2 ++ [65, 66] =
        headerBytes (LECROY_DATA_FLAG ||| LECROY_EOI_FLAG) 2 ++ [65, 66] ∧
      (headerBytes (LECROY_DATA_FLAG ||| LECROY_EOI_FLAG) 2 ++ [65, 66]).length = 8 + 2) ∧
    send_model [4, 9] [65, 66] = SendResult.headerError :=
  ⟨(send_transcript [8, 1, 1] [65, 66]).1
      (headerBytes (LECROY_DATA_FLAG ||| LECROY_EOI_FLAG) 2 ++ [65, 66]) (by decide),
    (send_transcript [4, 9] [65, 66]).2 4 [9] rfl (by decide)⟩

/-- Claim C9: when the terminating frame carries a payload that is present
but is not a single newline byte, the anomaly is printed (flag true) yet
the call still succeeds and returns the decoded samples — in
`getDataWords` provided the length check passes, and in `getDataBytes`
unconditionally. -/
theorem trailing_byte_nonfatal (rethead : List Nat) (pre : List (Nat × List Nat))
    (f : Nat) (p : List Nat) (rest : List (Nat × List Nat)) (exp : Int)
    (hpre : ∀ fr ∈ pre, fr.1 = LECROY_DATA_FLAG) (hf : f ≠ LECROY_DATA_FLAG)
    (hpresent : p ≠ []) (hnl : p ≠ [10])
    (hpar : parseBlockLen rethead = BlockLenResult.ok exp)
    (hlen : (((pre.map Prod.snd).flatten.length : Int) = exp)) :
    getDataWords rethead (pre ++ (f, p) :: rest) =
      WordsResult.ok (decodeWordsLE ((pre.map Prod.snd).flatten)) true ∧
    getDataBytes (pre ++ (f, p) :: rest) =
      some (decodeBytesSigned ((pre.map Prod.snd).flatten), true) := by
  have hc := collect_append pre f p rest hpre hf
  rw [decide_eq_true_eq.mpr hnl] at hc
  constructor
  · unfold getDataWords
    simp only [hpar, hc]
    rw [if_neg (fun hcon => hcon hlen)]
  · simp [getDataBytes, hc]

/-- Witness for C9: terminator payload "A" (not a newline) still yields
the decoded samples with the anomaly reported. -/
theorem trailing_byte_nonfatal_witness :
    getDataWords [35, 57, 48, 48, 48, 48, 48, 48, 48, 48, 50]
        [(128, [1, 0]), (1, [65])] = WordsResult.ok [1] true ∧
    getDataBytes [(128, [1, 0]), (1, [65])] = some ([1, 0], true) := by
  have h := trailing_byte_nonfatal [35, 57, 48, 48, 48, 48, 48, 48, 48, 48, 50]
    [(128, [1, 0])] 1 [65] [] 2 (by decide) (by decide) (by decide) (by decide)
    (by decide) (by decide)
  exact ⟨h.1, h.2⟩

/-- Claim C10 (implicit): in `getDataBytes` and `getDataWords` the payload
of the terminating frame (the first frame whose flags are not exactly
0x80) is consumed from the stream but never contributes to the decoded
samples — only payloads of frames whose flags equal the data flag do —
while `readAll` does include the final frame's payload in its accumulated
data. -/
theorem terminator_payload_excluded (pre : List (Nat × List Nat)) (f : Nat)
    (p : List Nat) (rest : List (Nat × List Nat))
    (hpre : ∀ fr ∈ pre, fr.1 = LECROY_DATA_FLAG) (hf : f ≠ LECROY_DATA_FLAG) :
    getDataBytes (pre ++ (f, p) :: rest) =
      some (decodeBytesSigned ((pre.map Prod.snd).flatten), decide (p ≠ [10])) ∧
    (∀ rethead exp, parseBlockLen rethead = BlockLenResult.ok exp →
      (((pre.map Prod.snd).flatten.length : Int) = exp) →
      getDataWords rethead (pre ++ (f, p) :: rest) =
        WordsResult.ok (decodeWordsLE ((pre.map Prod.snd).flatten)) (decide (p ≠ [10]))) ∧
    (p.all (fun c => c < 128) = true →
      (∀ fr ∈ pre, fr.1 = LECROY_DATA_FLAG ∧ fr.2.all (fun c => c < 128) = true) →
      readAll (pre ++ (f, p) :: rest) =
        ReadResult.done f ((pre.map Prod.snd).flatten ++ p)) := by
  have hc := collect_append pre f p rest hpre hf
  refine ⟨by simp [getDataBytes, hc], ?_, ?_⟩
  · intro rethead exp hpar hlen
    unfold getDataWords
    simp only [hpar, hc]
    rw [if_neg (fun hcon => hcon hlen)]
  · intro hp hpre2
    exact readAll_append pre f p rest hpre2 hf hp

/-- Witness for C10: the terminator payload "A" is absent from the decoded
samples of both data calls but present in the `readAll` result. -/
theorem terminator_payload_excluded_witness :
    getDataBytes [(128, [5, 6]), (1, [65])] = some ([5, 6], true) ∧
    getDataWords [35, 57, 48, 48, 48, 48, 48, 48, 48, 48, 50]
        [(128, [5, 6]), (1, [65])] = WordsResult.ok [1541] true ∧
    readAll [(128, [5, 6]), (1, [65])] = ReadResult.done 1 [5, 6, 65] := by
  have h := terminator_payload_excluded [(128, [5, 6])] 1 [65] [] (by decide) (by decide)
  exact ⟨h.1, h.2.1 [35, 57, 48, 48, 48, 48, 48, 48, 48, 48, 50] 2 (by decide) (by decide),
    h.2.2 (by decide) (by decide)⟩

end LeCroy
